import Mathlib

/-!
Verification of the data-preparation scripts `prepare_ampang_data.py` and
`prepare_transport_data.py`.

The Python code is shallowly embedded: Python `str` values become Lean
`String`/`List Char`, CSV rows become lists or structures of strings,
Python `dict`s become insertion-ordered association lists, `float` values
are modelled as `ℚ`, and the fallible `float(...)` parser is either passed
as an explicit parameter `pf : String → Option ℚ` or instantiated with the
concrete decimal parser `pyFloat` defined below.
-/

/-! ## Python string primitives -/

/-- Python `str.replace(old, new)` for a single-character `old`. -/
def pyReplace (old : Char) (new : List Char) : List Char → List Char
  | [] => []
  | c :: cs => (if c = old then new else [c]) ++ pyReplace old new cs

/-- Python `str.strip()`: drop leading and trailing whitespace. -/
def pyStrip (l : List Char) : List Char :=
  ((l.dropWhile Char.isWhitespace).reverse.dropWhile Char.isWhitespace).reverse

/-- Python `str.strip()` on `String`. -/
def pyStripStr (s : String) : String := ⟨pyStrip s.data⟩

/-- Python `str.split()` with no separator: split on whitespace runs,
discarding empty tokens. -/
def pySplit (s : List Char) : List (List Char) :=
  (s.splitOnP Char.isWhitespace).filter (fun t => !t.isEmpty)

/-- Python `" ".join(tokens)`. -/
def joinSpace : List (List Char) → List Char
  | [] => []
  | [t] => t
  | t :: ts => t ++ ' ' :: joinSpace ts

/-! ## `canonical_name` (prepare_ampang_data.py, lines 88-102) -/

/-- The `TOKENS_TO_REMOVE` set of `prepare_ampang_data.py`. -/
def TOKENS_TO_REMOVE : List (List Char) :=
  ["stesen".data, "station".data, "stations".data, "lrt".data, "mrt".data,
   "monorail".data, "line".data, "rapidkl".data, "putra".data, "klia".data,
   "malaysia".data]

/-- The `LINE_ABBREV` set of `prepare_ampang_data.py`. -/
def LINE_ABBREV : List (List Char) :=
  ["kjl".data, "sbk".data, "agc".data, "ssp".data, "kelana".data, "ampang".data]

/-- The successive reassignments of `text` in `canonical_name`: lowercase,
expand `&` to " and ", delete both apostrophe characters, replace both
parentheses by spaces. -/
def canonText (label : List Char) : List Char :=
  pyReplace ')' [' '] (pyReplace '(' [' '] (pyReplace '’' []
    (pyReplace '\'' [] (pyReplace '&' (" and ".data) (label.map Char.toLower)))))

/-- The `cleaned_tokens` list of `canonical_name`: split on whitespace and
drop stop-word and line-abbreviation tokens. -/
def canonTokens (label : List Char) : List (List Char) :=
  (pySplit (canonText label)).filter
    (fun t => !(TOKENS_TO_REMOVE.contains t) && !(LINE_ABBREV.contains t))

/-- `" ".join(cleaned_tokens).strip()`. -/
def canonList (label : List Char) : List Char :=
  pyStrip (joinSpace (canonTokens label))

/-- `canonical_name` of `prepare_ampang_data.py`. -/
def canonical_name (label : String) : String := ⟨canonList label.data⟩

/-! ## Character-level lemmas -/

theorem char_toNat_ofNat (n : Nat) (h : n.isValidChar) : (Char.ofNat n).toNat = n := by
  simp [Char.ofNat, dif_pos h, Char.ofNatAux, Char.toNat, UInt32.toNat]

theorem toLower_idem (c : Char) : c.toLower.toLower = c.toLower := by
  unfold Char.toLower
  by_cases h : c.toNat ≥ 65 ∧ c.toNat ≤ 90
  · rw [if_pos h]
    have hv : (c.toNat + 32).isValidChar := Or.inl (by omega)
    have := char_toNat_ofNat (c.toNat + 32) hv
    rw [if_neg (by omega)]
  · rw [if_neg h, if_neg h]

/-- Characters that pass through the `canonText` pipeline unchanged:
fixed by lowercasing and distinct from every replaced character. -/
def goodChar (c : Char) : Prop :=
  c.toLower = c ∧ c ≠ '&' ∧ c ≠ '\'' ∧ c ≠ '’' ∧ c ≠ '(' ∧ c ≠ ')'

instance (c : Char) : Decidable (goodChar c) := by
  unfold goodChar; infer_instance

/-! ## Lemmas about the string primitives -/

theorem pyReplace_chars {old : Char} {new s : List Char} :
    ∀ c ∈ pyReplace old new s, c ∈ new ∨ (c ∈ s ∧ c ≠ old) := by
  induction s with
  | nil => intro c hc; simp [pyReplace] at hc
  | cons x xs ih =>
    intro c hc
    simp only [pyReplace, List.mem_append] at hc
    rcases hc with hc | hc
    · by_cases hx : x = old
      · rw [if_pos hx] at hc; exact Or.inl hc
      · rw [if_neg hx] at hc
        simp at hc
        subst hc
        exact Or.inr ⟨List.mem_cons_self _ _, hx⟩
    · rcases ih c hc with h | ⟨h1, h2⟩
      · exact Or.inl h
      · exact Or.inr ⟨List.mem_cons_of_mem _ h1, h2⟩

theorem pyReplace_eq_self {old : Char} {new s : List Char} (h : old ∉ s) :
    pyReplace old new s = s := by
  induction s with
  | nil => rfl
  | cons x xs ih =>
    simp only [pyReplace]
    rw [if_neg (fun hx => h (by rw [← hx]; exact List.mem_cons_self _ _)),
        ih (fun hx => h (List.mem_cons_of_mem _ hx))]
    rfl

theorem splitOnP_chars {p : Char → Bool} :
    ∀ (s : List Char), ∀ t ∈ s.splitOnP p, ∀ c ∈ t, c ∈ s ∧ ¬ p c
  | [], t, ht, c, hc => by
    rw [List.splitOnP_nil] at ht
    simp at ht
    subst ht
    simp at hc
  | x :: xs, t, ht, c, hc => by
    rw [List.splitOnP_cons] at ht
    by_cases hx : p x
    · rw [if_pos hx] at ht
      rcases List.mem_cons.1 ht with h | h
      · subst h; simp at hc
      · have := splitOnP_chars xs t h c hc
        exact ⟨List.mem_cons_of_mem _ this.1, this.2⟩
    · rw [if_neg hx] at ht
      rcases hh : xs.splitOnP p with _ | ⟨hd, rest⟩
      · exact absurd hh (List.splitOnP_ne_nil _ _)
      · rw [hh] at ht
        simp only [List.modifyHead] at ht
        rcases List.mem_cons.1 ht with h | h
        · subst h
          rcases List.mem_cons.1 hc with h | h
          · subst h; exact ⟨List.mem_cons_self _ _, hx⟩
          · have hhd : hd ∈ xs.splitOnP p := by rw [hh]; exact List.mem_cons_self _ _
            have := splitOnP_chars xs hd hhd c h
            exact ⟨List.mem_cons_of_mem _ this.1, this.2⟩
        · have htt : t ∈ xs.splitOnP p := by rw [hh]; exact List.mem_cons_of_mem _ h
          have := splitOnP_chars xs t htt c hc
          exact ⟨List.mem_cons_of_mem _ this.1, this.2⟩

theorem pySplit_tokens {s : List Char} {t : List Char} (ht : t ∈ pySplit s) :
    t ≠ [] ∧ ∀ c ∈ t, c ∈ s ∧ ¬ c.isWhitespace = true := by
  unfold pySplit at ht
  have h1 := List.of_mem_filter ht
  have h2 := List.mem_of_mem_filter ht
  refine ⟨?_, fun c hc => splitOnP_chars s t h2 c hc⟩
  intro he
  subst he
  simp at h1

theorem joinSpace_chars : ∀ (ts : List (List Char)), ∀ c ∈ joinSpace ts,
    c = ' ' ∨ ∃ t ∈ ts, c ∈ t
  | [], c, hc => by simp [joinSpace] at hc
  | [t], c, hc => by
    simp only [joinSpace] at hc
    exact Or.inr ⟨t, List.mem_cons_self _ _, hc⟩
  | t :: t' :: ts, c, hc => by
    simp only [joinSpace, List.mem_append, List.mem_cons] at hc
    rcases hc with hc | hc | hc
    · exact Or.inr ⟨t, List.mem_cons_self _ _, hc⟩
    · exact Or.inl hc
    · rcases joinSpace_chars (t' :: ts) c hc with h | ⟨u, hu, hcu⟩
      · exact Or.inl h
      · exact Or.inr ⟨u, List.mem_cons_of_mem _ hu, hcu⟩

theorem pySplit_joinSpace :
    ∀ (ts : List (List Char)),
      (∀ t ∈ ts, t ≠ [] ∧ ∀ c ∈ t, ¬ c.isWhitespace = true) →
      pySplit (joinSpace ts) = ts
  | [], _ => by simp [joinSpace, pySplit, List.splitOnP_nil]
  | [t], h => by
    obtain ⟨hne, hws⟩ := h t (List.mem_cons_self _ _)
    simp only [joinSpace, pySplit]
    rw [List.splitOnP_eq_single _ _ (fun c hc => hws c hc)]
    simp [hne]
  | t :: t' :: ts, h => by
    obtain ⟨hne, hws⟩ := h t (List.mem_cons_self _ _)
    have hrest : ∀ u ∈ t' :: ts, u ≠ [] ∧ ∀ c ∈ u, ¬ c.isWhitespace = true :=
      fun u hu => h u (List.mem_cons_of_mem _ hu)
    have hj : joinSpace (t :: t' :: ts) = t ++ ' ' :: joinSpace (t' :: ts) := rfl
    simp only [pySplit, hj]
    rw [List.splitOnP_first _ _ (fun c hc => hws c hc) ' ' (by decide)]
    have ih := pySplit_joinSpace (t' :: ts) hrest
    simp only [pySplit] at ih
    simp [hne, ih]

theorem pyStrip_eq_self {l : List Char}
    (h1 : ∀ c, l.head? = some c → ¬ c.isWhitespace = true)
    (h2 : ∀ c, l.getLast? = some c → ¬ c.isWhitespace = true) :
    pyStrip l = l := by
  unfold pyStrip
  rcases hl : l with _ | ⟨x, xs⟩
  · rfl
  · subst hl
    have hx : ¬ x.isWhitespace = true := h1 x (by simp)
    rw [List.dropWhile_cons_of_neg hx]
    rcases hr : (x :: xs).reverse with _ | ⟨y, ys⟩
    · exact absurd (List.reverse_eq_nil_iff.1 hr) (List.cons_ne_nil x xs)
    · have hy : (x :: xs).getLast? = some y := by
        rw [← List.head?_reverse, hr]; rfl
      rw [List.dropWhile_cons_of_neg (h2 y hy), ← hr, List.reverse_reverse]

theorem joinSpace_getLast :
    ∀ (ts : List (List Char)), (∀ t ∈ ts, t ≠ []) → ts ≠ [] →
      ∃ t ∈ ts, (joinSpace ts).getLast? = t.getLast?
  | [], _, hne => absurd rfl hne
  | [t], _, _ => ⟨t, List.mem_cons_self _ _, rfl⟩
  | t :: t' :: ts, h, _ => by
    have hrest : ∀ u ∈ t' :: ts, u ≠ [] := fun u hu => h u (List.mem_cons_of_mem _ hu)
    obtain ⟨u, hu, hlast⟩ := joinSpace_getLast (t' :: ts) hrest (by simp)
    refine ⟨u, List.mem_cons_of_mem _ hu, ?_⟩
    have hj : joinSpace (t :: t' :: ts) = t ++ ' ' :: joinSpace (t' :: ts) := rfl
    have hjs : joinSpace (t' :: ts) ≠ [] := by
      rcases ts with _ | ⟨a, as⟩
      · exact hrest t' (List.mem_cons_self _ _)
      · simp [joinSpace]
    rw [hj, List.getLast?_append]
    have : (' ' :: joinSpace (t' :: ts)).getLast? = (joinSpace (t' :: ts)).getLast? := by
      have : (' ' :: joinSpace (t' :: ts)) = [' '] ++ joinSpace (t' :: ts) := rfl
      rw [this, List.getLast?_append]
      rcases hx : (joinSpace (t' :: ts)).getLast? with _ | c
      · exact absurd (List.getLast?_eq_none_iff.1 hx) hjs
      · rfl
    rw [this, hlast]
    rcases hx : u.getLast? with _ | c
    · exact absurd (List.getLast?_eq_none_iff.1 hx) (hrest u hu)
    · rfl

theorem joinSpace_head :
    ∀ (ts : List (List Char)), (∀ t ∈ ts, t ≠ []) → ts ≠ [] →
      ∃ t ∈ ts, (joinSpace ts).head? = t.head?
  | [], _, hne => absurd rfl hne
  | [t], _, _ => ⟨t, List.mem_cons_self _ _, rfl⟩
  | t :: t' :: ts, h, _ => by
    refine ⟨t, List.mem_cons_self _ _, ?_⟩
    have hj : joinSpace (t :: t' :: ts) = t ++ ' ' :: joinSpace (t' :: ts) := rfl
    rw [hj, List.head?_append]
    rcases hx : t.head? with _ | c
    · exact absurd (List.head?_eq_none_iff.1 hx) (h t (List.mem_cons_self _ _))
    · rfl

/-! ## Idempotence of `canonical_name` -/

theorem canonText_chars (label : List Char) : ∀ c ∈ canonText label, goodChar c := by
  intro c hc
  unfold canonText at hc
  rcases pyReplace_chars c hc with h | ⟨hc, hcr⟩
  · simp at h; subst h; decide
  rcases pyReplace_chars c hc with h | ⟨hc, hcl⟩
  · simp at h; subst h; decide
  rcases pyReplace_chars c hc with h | ⟨hc, hcq⟩
  · simp at h
  rcases pyReplace_chars c hc with h | ⟨hc, hca⟩
  · simp at h
  rcases pyReplace_chars c hc with h | ⟨hc, hcamp⟩
  · fin_cases h <;> exact ⟨by decide, by decide, hca, hcq, hcl, hcr⟩
  · obtain ⟨d, _, hd⟩ := List.mem_map.1 hc
    exact ⟨hd ▸ toLower_idem d, hcamp, hca, hcq, hcl, hcr⟩

/-- Tokens produced by `canonTokens`: nonempty, whitespace-free, made of
pipeline-stable characters, and surviving the stop-word filter. -/
def goodToken (t : List Char) : Prop :=
  t ≠ [] ∧ (∀ c ∈ t, ¬ c.isWhitespace = true ∧ goodChar c) ∧
    (!(TOKENS_TO_REMOVE.contains t) && !(LINE_ABBREV.contains t)) = true

theorem canonTokens_good (label : List Char) : ∀ t ∈ canonTokens label, goodToken t := by
  intro t ht
  unfold canonTokens at ht
  have hpred := List.of_mem_filter ht
  have hmem := List.mem_of_mem_filter ht
  obtain ⟨hne, hchars⟩ := pySplit_tokens hmem
  exact ⟨hne, fun c hc => ⟨(hchars c hc).2, canonText_chars label c (hchars c hc).1⟩, hpred⟩

theorem canonList_eq_joinSpace (label : List Char) :
    canonList label = joinSpace (canonTokens label) := by
  unfold canonList
  have hgood := canonTokens_good label
  have hne : ∀ t ∈ canonTokens label, t ≠ [] := fun t ht => (hgood t ht).1
  apply pyStrip_eq_self
  · intro c hc
    rcases hts : canonTokens label with _ | ⟨t, ts⟩
    · rw [hts] at hc; simp [joinSpace] at hc
    · rw [hts] at hc
      obtain ⟨u, hu, hhead⟩ := joinSpace_head (t :: ts) (fun v hv => hne v (hts ▸ hv)) (by simp)
      rw [hhead] at hc
      have hcu : c ∈ u := List.mem_of_mem_head? (by rw [hc]; rfl)
      exact ((hgood u (hts ▸ hu)).2.1 c hcu).1
  · intro c hc
    rcases hts : canonTokens label with _ | ⟨t, ts⟩
    · rw [hts] at hc; simp [joinSpace] at hc
    · rw [hts] at hc
      obtain ⟨u, hu, hlast⟩ := joinSpace_getLast (t :: ts) (fun v hv => hne v (hts ▸ hv)) (by simp)
      rw [hlast] at hc
      have hcu : c ∈ u := List.mem_of_getLast?_eq_some hc
      exact ((hgood u (hts ▸ hu)).2.1 c hcu).1

theorem canonList_fixed (ts : List (List Char)) (h : ∀ t ∈ ts, goodToken t) :
    canonList (joinSpace ts) = joinSpace ts := by
  have hnows : ∀ t ∈ ts, t ≠ [] ∧ ∀ c ∈ t, ¬ c.isWhitespace = true :=
    fun t ht => ⟨(h t ht).1, fun c hc => ((h t ht).2.1 c hc).1⟩
  have hgoodc : ∀ c ∈ joinSpace ts, c = ' ' ∨ goodChar c := by
    intro c hc
    rcases joinSpace_chars ts c hc with hsp | ⟨t, ht, hct⟩
    · exact Or.inl hsp
    · exact Or.inr ((h t ht).2.1 c hct).2
  have habsent : ∀ old : Char, old ≠ ' ' → ¬ goodChar old → old ∉ joinSpace ts := by
    intro old hsp hbad hmem
    rcases hgoodc old hmem with h' | h'
    · exact hsp h'
    · exact hbad h'
  have htext : canonText (joinSpace ts) = joinSpace ts := by
    unfold canonText
    have hmap : (joinSpace ts).map Char.toLower = joinSpace ts := by
      rw [List.map_congr_left, List.map_id]
      intro c hc
      rcases hgoodc c hc with h' | h'
      · subst h'; decide
      · exact h'.1
    rw [hmap,
        pyReplace_eq_self (habsent '&' (by decide) (by decide)),
        pyReplace_eq_self (habsent '\'' (by decide) (by decide)),
        pyReplace_eq_self (habsent '’' (by decide) (by decide)),
        pyReplace_eq_self (habsent '(' (by decide) (by decide)),
        pyReplace_eq_self (habsent ')' (by decide) (by decide))]
  have htok : canonTokens (joinSpace ts) = ts := by
    unfold canonTokens
    rw [htext, pySplit_joinSpace ts hnows, List.filter_eq_self.2 (fun t ht => (h t ht).2.2)]
  unfold canonList
  rw [htok]
  exact pyStrip_eq_self
    (by
      intro c hc
      rcases hts : ts with _ | ⟨t, rest⟩
      · rw [hts] at hc; simp [joinSpace] at hc
      · rw [hts] at hc
        obtain ⟨u, hu, hhead⟩ := joinSpace_head (t :: rest)
          (fun v hv => (h v (hts ▸ hv)).1) (by simp)
        rw [hhead] at hc
        exact ((h u (hts ▸ hu)).2.1 c (List.mem_of_mem_head? (by rw [hc]; rfl))).1)
    (by
      intro c hc
      rcases hts : ts with _ | ⟨t, rest⟩
      · rw [hts] at hc; simp [joinSpace] at hc
      · rw [hts] at hc
        obtain ⟨u, hu, hlast⟩ := joinSpace_getLast (t :: rest)
          (fun v hv => (h v (hts ▸ hv)).1) (by simp)
        rw [hlast] at hc
        exact ((h u (hts ▸ hu)).2.1 c (List.mem_of_getLast?_eq_some hc)).1)

/-- C3: `canonical_name` is idempotent: for every string `x`,
`canonical_name (canonical_name x) = canonical_name x`. -/
theorem canonical_name_idempotent (x : String) :
    canonical_name (canonical_name x) = canonical_name x := by
  show (⟨canonList (canonList x.data)⟩ : String) = ⟨canonList x.data⟩
  rw [canonList_eq_joinSpace x.data,
      canonList_fixed (canonTokens x.data) (canonTokens_good x.data)]

/-! ## A concrete model of Python `float(...)` for plain decimal literals -/

/-- Value of a digit string, most significant first. -/
def digitsVal (l : List Char) : Nat := l.foldl (fun a c => a * 10 + (c.toNat - 48)) 0

/-- Parse a stripped decimal literal: optional sign, then
`digits`, `digits.digits`, `digits.` or `.digits`. -/
def pyFloatCore (l : List Char) : Option ℚ :=
  let signAndRest : ℚ × List Char :=
    match l with
    | '+' :: r => (1, r)
    | '-' :: r => (-1, r)
    | r => (1, r)
  let sign := signAndRest.1
  let rest := signAndRest.2
  let intPart := rest.takeWhile Char.isDigit
  let rest2 := rest.dropWhile Char.isDigit
  match rest2 with
  | [] => if intPart.isEmpty then none else some (sign * digitsVal intPart)
  | '.' :: frac =>
    if frac.all Char.isDigit && (!intPart.isEmpty || !frac.isEmpty) then
      some (sign * ((digitsVal intPart : ℚ) + (digitsVal frac : ℚ) / (10 ^ frac.length)))
    else none
  | _ => none

/-- Model of Python `float(s)` (which ignores surrounding whitespace),
restricted to plain decimal literals. -/
def pyFloat (s : String) : Option ℚ := pyFloatCore (pyStrip s.data)

/-! ## `read_fare_matrix` (prepare_ampang_data.py, lines 27-68) -/

/-- A tidy origin-destination fare row. -/
structure FareRecord where
  origin : String
  destination : String
  fare : ℚ
deriving DecidableEq, Repr

/-- The inner `for dest, value in zip(destinations, row[1:])` loop of
`read_fare_matrix`: skip blank destinations, blank cells and cells the
float parser rejects; otherwise append a `FareRecord`. -/
def fareCells (pf : String → Option ℚ) (origin : String) :
    List (String × String) → List FareRecord
  | [] => []
  | (dest, value) :: rest =>
    let d := pyStripStr dest
    if d = "" ∨ value = "" then fareCells pf origin rest
    else
      match pf value with
      | none => fareCells pf origin rest
      | some fare => ⟨origin, d, fare⟩ :: fareCells pf origin rest

/-- The outer row loop of `read_fare_matrix`, threading the
`station_order` accumulator. -/
def fareRows (pf : String → Option ℚ) (destinations : List String) :
    List (List String) → List String → List String × List FareRecord
  | [], station_order => (station_order, [])
  | row :: rest, station_order =>
    if row = [] then fareRows pf destinations rest station_order
    else
      let origin := pyStripStr (row.headD "")
      if origin = "" then fareRows pf destinations rest station_order
      else
        let so := if station_order.contains origin then station_order
                  else station_order ++ [origin]
        let acc := fareRows pf destinations rest so
        (acc.1, fareCells pf origin (destinations.zip (row.drop 1)) ++ acc.2)

/-- The trailing loop of `read_fare_matrix`: append header-only
destinations to `station_order`. -/
def appendDests : List String → List String → List String
  | [], so => so
  | d :: ds, so =>
    appendDests ds (if d ≠ "" ∧ ¬ so.contains d then so ++ [d] else so)

/-- `read_fare_matrix` of `prepare_ampang_data.py`, over the parsed CSV
rows; raises `ValueError("Fare.csv is empty")` when there is no header row. -/
def read_fare_matrix (pf : String → Option ℚ) (rows : List (List String)) :
    Except String (List String × List FareRecord) :=
  match rows with
  | [] => Except.error "Fare.csv is empty"
  | header :: rest =>
    let destinations := (header.drop 1).map pyStripStr
    let acc := fareRows pf destinations rest []
    Except.ok (appendDests destinations acc.1, acc.2)

/-- The fare records described by the spec, cell by cell: for every row
with a non-blank origin and every zipped (destination, cell) pair, a
record appears exactly when the destination is non-blank, the cell is
non-blank and the cell parses; its fare is the parsed value. -/
def fareRecordsSpec (pf : String → Option ℚ) (rows : List (List String)) :
    List FareRecord :=
  match rows with
  | [] => []
  | header :: rest =>
    let destinations := (header.drop 1).map pyStripStr
    (rest.filter (fun r => !r.isEmpty && !(pyStripStr (r.headD "") == ""))).flatMap
      (fun r => (destinations.zip (r.drop 1)).filterMap
        (fun dv => if pyStripStr dv.1 = "" ∨ dv.2 = "" then none
                   else (pf dv.2).map
                     (fun q => ⟨pyStripStr (r.headD ""), pyStripStr dv.1, q⟩)))

instance exceptDecEq {ε α : Type} [DecidableEq ε] [DecidableEq α] :
    DecidableEq (Except ε α)
  | .error a, .error b =>
    if h : a = b then isTrue (h ▸ rfl) else isFalse (fun he => h (Except.error.inj he))
  | .error _, .ok _ => isFalse Except.noConfusion
  | .ok _, .error _ => isFalse Except.noConfusion
  | .ok a, .ok b =>
    if h : a = b then isTrue (h ▸ rfl) else isFalse (fun he => h (Except.ok.inj he))

theorem fareCells_eq (pf : String → Option ℚ) (origin : String) :
    ∀ l : List (String × String),
      fareCells pf origin l = l.filterMap
        (fun dv => if pyStripStr dv.1 = "" ∨ dv.2 = "" then none
                   else (pf dv.2).map (fun q => ⟨origin, pyStripStr dv.1, q⟩))
  | [] => rfl
  | (dest, value) :: rest => by
    simp only [fareCells, List.filterMap_cons]
    by_cases hd : pyStripStr dest = "" ∨ value = ""
    · rw [if_pos hd, if_pos hd, fareCells_eq pf origin rest]
    · rw [if_neg hd, if_neg hd]
      rcases hpf : pf value with _ | q
      · simp [fareCells_eq pf origin rest]
      · simp [fareCells_eq pf origin rest]

theorem fareRows_tidy (pf : String → Option ℚ) (destinations : List String) :
    ∀ (rest : List (List String)) (so : List String),
      (fareRows pf destinations rest so).2 =
        (rest.filter (fun r => !r.isEmpty && !(pyStripStr (r.headD "") == ""))).flatMap
          (fun r => fareCells pf (pyStripStr (r.headD "")) (destinations.zip (r.drop 1)))
  | [], _ => rfl
  | row :: rest, so => by
    simp only [fareRows]
    by_cases hrow : row = []
    · rw [if_pos hrow]
      have hfil : List.filter
          (fun r : List String => !r.isEmpty && !(pyStripStr (r.headD "") == ""))
          (row :: rest) = List.filter
          (fun r : List String => !r.isEmpty && !(pyStripStr (r.headD "") == "")) rest :=
        List.filter_cons_of_neg (by subst hrow; simp)
      rw [hfil]
      exact fareRows_tidy pf destinations rest so
    · rw [if_neg hrow]
      have hne : (row.isEmpty : Bool) = false := by
        rcases row with _ | _ <;> simp_all
      by_cases ho : pyStripStr (row.headD "") = ""
      · rw [if_pos ho]
        have hfil : List.filter
            (fun r : List String => !r.isEmpty && !(pyStripStr (r.headD "") == ""))
            (row :: rest) = List.filter
            (fun r : List String => !r.isEmpty && !(pyStripStr (r.headD "") == "")) rest :=
          List.filter_cons_of_neg (by simp [hne]; simpa using ho)
        rw [hfil]
        exact fareRows_tidy pf destinations rest so
      · rw [if_neg ho]
        have hfil : List.filter
            (fun r : List String => !r.isEmpty && !(pyStripStr (r.headD "") == ""))
            (row :: rest) = row :: List.filter
            (fun r : List String => !r.isEmpty && !(pyStripStr (r.headD "") == "")) rest :=
          List.filter_cons_of_pos (by simp [hne]; simpa using ho)
        rw [hfil, List.flatMap_cons]
        rw [fareRows_tidy pf destinations rest]

/-- C2: for every fare-matrix row with a non-empty origin and every zipped
header destination, `read_fare_matrix` emits a `FareRecord` exactly when
the destination is non-blank and the cell is non-blank and parses as a
float, with fare equal to the parsed value; malformed or blank cells are
skipped without error.  In particular the numeric `"0"` self-fare cell of
the spec example is recorded. -/
theorem read_fare_matrix_records :
    (∀ (pf : String → Option ℚ) (header : List String) (rest : List (List String)),
      ∃ so, read_fare_matrix pf (header :: rest) =
        Except.ok (so, fareRecordsSpec pf (header :: rest))) ∧
    read_fare_matrix pyFloat
        [["", "KLCC", "Ampang Park", "Cempaka"], ["KLCC", "0", "1.20", "2.30"]] =
      Except.ok (["KLCC", "Ampang Park", "Cempaka"],
        [⟨"KLCC", "KLCC", 0⟩, ⟨"KLCC", "Ampang Park", 6/5⟩, ⟨"KLCC", "Cempaka", 23/10⟩]) := by
  constructor
  · intro pf header rest
    refine ⟨appendDests ((header.drop 1).map pyStripStr)
      (fareRows pf ((header.drop 1).map pyStripStr) rest []).1, ?_⟩
    simp only [read_fare_matrix, fareRecordsSpec]
    rw [fareRows_tidy]
    exact congrArg Except.ok (congrArg (Prod.mk _)
      (congrArg _ (funext (fun r => fareCells_eq pf (pyStripStr (r.headD "")) _))))
  · with_unfolding_all decide

/-- C6: `read_fare_matrix` raises an error exactly when the input has no
header row; any input with at least a header row returns normally. -/
theorem read_fare_matrix_error_iff (pf : String → Option ℚ)
    (rows : List (List String)) :
    (∃ e, read_fare_matrix pf rows = Except.error e) ↔ rows = [] := by
  constructor
  · rintro ⟨e, he⟩
    rcases rows with _ | ⟨header, rest⟩
    · rfl
    · simp [read_fare_matrix] at he
  · rintro rfl
    exact ⟨"Fare.csv is empty", rfl⟩

/-! ## `match_station_locations` (prepare_ampang_data.py, lines 105-225) -/

/-- A row of the station registry CSV (`csv.DictReader` output); the
coordinate fields are `Option` because a short CSV row leaves them `None`. -/
structure StationRow where
  station_name : String
  latitude : Option String
  longitude : Option String
deriving DecidableEq, Repr

/-- `build_station_lookup`: first-wins (`setdefault`) association from
canonical registry names to rows, skipping rows with a blank name or a
blank canonical key. -/
def build_station_lookup : List StationRow → List (String × StationRow)
  | [] => []
  | row :: rest =>
    let name := pyStripStr row.station_name
    if name = "" then build_station_lookup rest
    else
      let key := canonical_name name
      if key = "" then build_station_lookup rest
      else (key, row) :: build_station_lookup rest

/-- The `MANUAL_ALIASES` table of `prepare_ampang_data.py`. -/
def MANUAL_ALIASES : List (String × String) :=
  [("maluri sbk", "maluri"),
   ("pasar seni kjl", "pasar seni"),
   ("pasar seni sbk", "pasar seni"),
   ("masjid jamek kjl", "masjid jamek"),
   ("masjid jamek sbk", "masjid jamek"),
   ("putra heights kjl", "putra heights"),
   ("pasar seni", "pasar seni"),
   ("kajang", "kajang")]

/-- The `MANUAL_COORDINATES` table of `prepare_ampang_data.py`. -/
def MANUAL_COORDINATES : List (String × (ℚ × ℚ)) :=
  [("kl sentral", (3.1346, 101.6865)),
   ("bangsar", (3.1282, 101.6790)),
   ("taman paramount", (3.1075, 101.6222)),
   ("taman bahagia", (3.1116, 101.6144)),
   ("jaya", (3.1093, 101.6151)),
   ("ss 15", (3.0817, 101.5863)),
   ("ss 18", (3.0744, 101.5931)),
   ("usj 7", (3.0482, 101.5934)),
   ("usj 21", (3.0279, 101.5853)),
   ("sungai buloh", (3.1979, 101.5771)),
   ("kampung selamat", (3.2106, 101.5703)),
   ("kwasa damansara", (3.1804, 101.5666)),
   ("kwasa sentral", (3.1735, 101.5732)),
   ("kota damansara", (3.1575, 101.5853)),
   ("surian", (3.1457, 101.5937)),
   ("mutiara damansara", (3.1443, 101.6096)),
   ("bandar utama", (3.1460, 101.6157)),
   ("ttdi", (3.1374, 101.6278)),
   ("phileo damansara", (3.1313, 101.6408)),
   ("pusat bandar damansara", (3.1485, 101.6632)),
   ("semantan", (3.1540, 101.6610)),
   ("muzium negara", (3.1277, 101.6876)),
   ("merdeka", (3.1411, 101.6983)),
   ("bukit bintang", (3.1470, 101.7082)),
   ("tun razak exchange trx", (3.1399, 101.7188)),
   ("cochrane", (3.1317, 101.7329)),
   ("taman pertama", (3.1140, 101.7419)),
   ("taman midah", (3.1066, 101.7441)),
   ("taman mutiara", (3.0956, 101.7506)),
   ("taman connaught", (3.0847, 101.7542)),
   ("taman suntex", (3.0705, 101.7712)),
   ("sri raya", (3.0608, 101.7813)),
   ("bandar tun hussein onn", (3.0451, 101.7871)),
   ("batu 11 cheras", (3.0348, 101.7904)),
   ("bukit dukung", (3.0246, 101.7933)),
   ("sungai jernih", (3.0148, 101.7936)),
   ("stadium kajang", (3.0087, 101.7938)),
   ("kajang", (3.0033, 101.7896))]

/-- One matched output record of `match_station_locations`. -/
structure MatchedStation where
  station : String
  order : Nat
  latitude : ℚ
  longitude : ℚ
deriving DecidableEq, Repr

/-- Lines 195-207 of `prepare_ampang_data.py`: parse `row["latitude"]`,
`row["longitude"]` (both-or-nothing, `TypeError`/`ValueError` caught) and
discard a coordinate outside the Malaysia bounding box. -/
def registryCoord (pf : String → Option ℚ) : Option StationRow → Option (ℚ × ℚ)
  | none => none
  | some r =>
    match r.latitude.bind pf, r.longitude.bind pf with
    | some lat, some lon =>
      if 1 ≤ lat ∧ lat ≤ 7.5 ∧ 99 ≤ lon ∧ lon ≤ 105 then some (lat, lon)
      else none
    | _, _ => none

/-- The per-station body of the `match_station_locations` loop: alias or
direct registry lookup, coordinate parse, bounding-box check, manual
fallback; `none` means the station goes to the unmatched list. -/
def resolveStation (pf : String → Option ℚ) (lookup : List (String × StationRow))
    (station : String) : Option (ℚ × ℚ) :=
  let key := canonical_name station
  let row : Option StationRow :=
    match MANUAL_ALIASES.lookup key with
    | some alias_key => lookup.lookup alias_key
    | none => lookup.lookup key
  let manual_coords := MANUAL_COORDINATES.lookup key
  if row.isNone ∧ manual_coords.isNone then none
  else
    let latlon : Option (ℚ × ℚ) := registryCoord pf row
    match latlon with
    | some ll => some ll
    | none => manual_coords

/-- The `for index, station in enumerate(station_order, start=1)` loop. -/
def matchLoop (pf : String → Option ℚ) (lookup : List (String × StationRow)) :
    Nat → List String → List MatchedStation × List String
  | _, [] => ([], [])
  | index, station :: rest =>
    let acc := matchLoop pf lookup (index + 1) rest
    match resolveStation pf lookup station with
    | some ll => (⟨station, index, ll.1, ll.2⟩ :: acc.1, acc.2)
    | none => (acc.1, station :: acc.2)

/-- `match_station_locations` of `prepare_ampang_data.py`, over the parsed
registry rows. -/
def match_station_locations (pf : String → Option ℚ) (station_order : List String)
    (registryRows : List StationRow) : List MatchedStation × List String :=
  matchLoop pf (build_station_lookup registryRows) 1 station_order

/-- Resolution as the spec words it: consult the registry under the alias
target when the canonical key is aliased, otherwise under the canonical
key itself; keep the coordinate only if it parses and lies in the Malaysia
bounding box; otherwise fall back to the manual coordinate table; `none`
if still unresolved. -/
def resolveStationSpec (pf : String → Option ℚ) (lookup : List (String × StationRow))
    (station : String) : Option (ℚ × ℚ) :=
  let key := canonical_name station
  let registry_key :=
    match MANUAL_ALIASES.lookup key with
    | some alias_key => alias_key
    | none => key
  let registry_coord : Option (ℚ × ℚ) := registryCoord pf (lookup.lookup registry_key)
  registry_coord.orElse (fun _ => MANUAL_COORDINATES.lookup key)

theorem resolveStation_eq_spec (pf : String → Option ℚ)
    (lookup : List (String × StationRow)) (station : String) :
    resolveStation pf lookup station = resolveStationSpec pf lookup station := by
  have key : ∀ (row : Option StationRow) (manual : Option (ℚ × ℚ)),
      (if row.isNone ∧ manual.isNone then none
       else
         match registryCoord pf row with
         | some ll => some ll
         | none => manual) =
      (registryCoord pf row).orElse (fun _ => manual) := by
    intro row manual
    rcases row with _ | r
    · rcases manual with _ | mc
      · rw [if_pos (by simp)]
        rfl
      · rw [if_neg (by simp)]
        rfl
    · rw [if_neg (by simp)]
      rcases registryCoord pf (some r) with _ | ll <;> rfl
  unfold resolveStation resolveStationSpec
  rcases ha : MANUAL_ALIASES.lookup (canonical_name station) with _ | ak <;>
    simp only [ha] <;> apply key

theorem matchLoop_eq (pf : String → Option ℚ) (lookup : List (String × StationRow)) :
    ∀ (l : List String) (i : Nat),
      matchLoop pf lookup i l =
        ((List.enumFrom i l).filterMap (fun p =>
           (resolveStation pf lookup p.2).map (fun ll => ⟨p.2, p.1, ll.1, ll.2⟩)),
         l.filter (fun st => (resolveStation pf lookup st).isNone))
  | [], i => rfl
  | station :: rest, i => by
    simp only [matchLoop, List.enumFrom, List.filterMap_cons, List.filter_cons]
    rcases hrs : resolveStation pf lookup station with _ | ll <;>
      simp [hrs, matchLoop_eq pf lookup rest (i + 1)]

/-- C1: each station of `station_order` is resolved by consulting the
registry under the alias target when its canonical key is aliased and
under the canonical key itself otherwise, validating against the Malaysia
bounding box, then falling back to the manual coordinate table; stations
still unresolved are recorded as unmatched and omitted from the matched
output. -/
theorem match_station_locations_resolution (pf : String → Option ℚ)
    (station_order : List String) (registryRows : List StationRow) :
    match_station_locations pf station_order registryRows =
      ((List.enumFrom 1 station_order).filterMap (fun p =>
         (resolveStationSpec pf (build_station_lookup registryRows) p.2).map
           (fun ll => ⟨p.2, p.1, ll.1, ll.2⟩)),
       station_order.filter (fun st =>
         (resolveStationSpec pf (build_station_lookup registryRows) st).isNone)) := by
  unfold match_station_locations
  rw [matchLoop_eq]
  simp only [resolveStation_eq_spec]

theorem matchLoop_partition (pf : String → Option ℚ)
    (lookup : List (String × StationRow)) :
    ∀ (l : List String) (i : Nat),
      ((matchLoop pf lookup i l).1.length + (matchLoop pf lookup i l).2.length
        = l.length) ∧
      ((matchLoop pf lookup i l).1.map (fun m => m.station)).Sublist l ∧
      (matchLoop pf lookup i l).2.Sublist l
  | [], _ => ⟨rfl, List.Sublist.refl _, List.Sublist.refl _⟩
  | station :: rest, i => by
    obtain ⟨hlen, hm, hu⟩ := matchLoop_partition pf lookup rest (i + 1)
    simp only [matchLoop]
    rcases hrs : resolveStation pf lookup station with _ | ll
    · exact ⟨by simpa using by omega, hm.cons _, hu.cons₂ _⟩
    · exact ⟨by simpa using by omega, hm.cons₂ _, hu.cons _⟩

/-- C9: `match_station_locations` partitions its input: the matched and
unmatched lists together have exactly the length of `station_order`, and
each preserves the relative input order of its stations. -/
theorem match_station_locations_partition (pf : String → Option ℚ)
    (station_order : List String) (registryRows : List StationRow) :
    ((match_station_locations pf station_order registryRows).1.length +
       (match_station_locations pf station_order registryRows).2.length
       = station_order.length) ∧
    ((match_station_locations pf station_order registryRows).1.map
       (fun m => m.station)).Sublist station_order ∧
    (match_station_locations pf station_order registryRows).2.Sublist station_order :=
  matchLoop_partition pf (build_station_lookup registryRows) station_order 1

theorem matchLoop_resolved (pf : String → Option ℚ)
    (lookup : List (String × StationRow)) :
    ∀ (l : List String) (i : Nat) (m : MatchedStation),
      m ∈ (matchLoop pf lookup i l).1 →
      resolveStation pf lookup m.station = some (m.latitude, m.longitude) ∧
      i ≤ m.order ∧ l[m.order - i]? = some m.station
  | [], _, m, hm => by simp [matchLoop] at hm
  | station :: rest, i, m, hm => by
    simp only [matchLoop] at hm
    rcases hrs : resolveStation pf lookup station with _ | ll <;> rw [hrs] at hm
    · obtain ⟨h1, h2, h3⟩ := matchLoop_resolved pf lookup rest (i + 1) m hm
      refine ⟨h1, by omega, ?_⟩
      have : m.order - i = (m.order - (i + 1)) + 1 := by omega
      rw [this, List.getElem?_cons_succ]
      exact h3
    · rcases List.mem_cons.1 hm with h | h
      · subst h
        simp [hrs]
      · obtain ⟨h1, h2, h3⟩ := matchLoop_resolved pf lookup rest (i + 1) m h
        refine ⟨h1, by omega, ?_⟩
        have : m.order - i = (m.order - (i + 1)) + 1 := by omega
        rw [this, List.getElem?_cons_succ]
        exact h3

theorem registryCoord_box (pf : String → Option ℚ) (row : Option StationRow)
    (ll : ℚ × ℚ) (h : registryCoord pf row = some ll) :
    1 ≤ ll.1 ∧ ll.1 ≤ 7.5 ∧ 99 ≤ ll.2 ∧ ll.2 ≤ 105 := by
  rcases row with _ | r
  · exact absurd h (by simp [registryCoord])
  · simp only [registryCoord] at h
    split at h
    · split at h
      · rename_i hc
        simp only [Option.some.injEq] at h
        subst h
        exact hc
      · exact absurd h (by simp)
    · exact absurd h (by simp)

theorem resolveStation_box (pf : String → Option ℚ)
    (lookup : List (String × StationRow)) (station : String) (ll : ℚ × ℚ)
    (h : resolveStation pf lookup station = some ll) :
    (1 ≤ ll.1 ∧ ll.1 ≤ 7.5 ∧ 99 ≤ ll.2 ∧ ll.2 ≤ 105) ∨
    MANUAL_COORDINATES.lookup (canonical_name station) = some ll := by
  have key : ∀ (row : Option StationRow) (manual : Option (ℚ × ℚ)),
      (if row.isNone ∧ manual.isNone then none
       else
         match registryCoord pf row with
         | some l2 => some l2
         | none => manual) = some ll →
      (1 ≤ ll.1 ∧ ll.1 ≤ 7.5 ∧ 99 ≤ ll.2 ∧ ll.2 ≤ 105) ∨ manual = some ll := by
    intro row manual hrm
    by_cases hcond : row.isNone ∧ manual.isNone
    · rw [if_pos hcond] at hrm
      exact absurd hrm (by simp)
    · rw [if_neg hcond] at hrm
      rcases hc : registryCoord pf row with _ | l2 <;> rw [hc] at hrm <;>
        [exact Or.inr hrm;
         skip]
      simp only [Option.some.injEq] at hrm
      subst hrm
      exact Or.inl (registryCoord_box pf row l2 hc)
  unfold resolveStation at h
  exact key _ _ h

/-- C4: every matched record either lies inside the Malaysia bounding box
(`1 ≤ lat ≤ 7.5`, `99 ≤ lon ≤ 105`) or carries exactly the coordinates of
the manual coordinate table entry for its canonical name; a record outside
the box can only be manual-sourced. -/
theorem match_station_locations_box (pf : String → Option ℚ)
    (station_order : List String) (registryRows : List StationRow)
    (m : MatchedStation)
    (hm : m ∈ (match_station_locations pf station_order registryRows).1) :
    (1 ≤ m.latitude ∧ m.latitude ≤ 7.5 ∧ 99 ≤ m.longitude ∧ m.longitude ≤ 105) ∨
    MANUAL_COORDINATES.lookup (canonical_name m.station)
      = some (m.latitude, m.longitude) := by
  obtain ⟨h1, _, _⟩ := matchLoop_resolved pf (build_station_lookup registryRows)
    station_order 1 m hm
  exact resolveStation_box pf _ m.station (m.latitude, m.longitude) h1

/-- A sample registry used to witness the coordinate-matcher theorems on
concrete data. -/
def sampleRegistry : List StationRow :=
  [⟨"Chan Sow Lin", some "3", some "101"⟩]

/-- A sample float parser for the witness data. -/
def samplePf : String → Option ℚ :=
  fun s => if s = "3" then some 3 else if s = "101" then some 101 else none

/-- Sample fare-matrix station order. -/
def sampleStations : List String := ["Chan Sow Lin"]

set_option maxRecDepth 8192 in
theorem match_station_locations_box_witness :
    (⟨"Chan Sow Lin", 1, 3, 101⟩ : MatchedStation) ∈
      (match_station_locations samplePf sampleStations sampleRegistry).1 ∧
    ((1 ≤ (3 : ℚ) ∧ (3 : ℚ) ≤ 7.5 ∧ 99 ≤ (101 : ℚ) ∧ (101 : ℚ) ≤ 105) ∨
     MANUAL_COORDINATES.lookup (canonical_name "Chan Sow Lin")
       = some (3, 101)) :=
  ⟨by with_unfolding_all decide,
   match_station_locations_box samplePf sampleStations sampleRegistry
     ⟨"Chan Sow Lin", 1, 3, 101⟩ (by with_unfolding_all decide)⟩

theorem matchLoop_pairwise (pf : String → Option ℚ)
    (lookup : List (String × StationRow)) :
    ∀ (l : List String) (i : Nat),
      (matchLoop pf lookup i l).1.Pairwise (fun a b => a.order < b.order)
  | [], _ => List.Pairwise.nil
  | station :: rest, i => by
    simp only [matchLoop]
    rcases hrs : resolveStation pf lookup station with _ | ll
    · exact matchLoop_pairwise pf lookup rest (i + 1)
    · refine List.Pairwise.cons ?_ (matchLoop_pairwise pf lookup rest (i + 1))
      intro b hb
      have := (matchLoop_resolved pf lookup rest (i + 1) b hb).2.1
      simpa using by omega

/-- C5: in the matched output the `order` fields are strictly increasing,
and each record's `order` is the 1-based position of its station in the
input `station_order` list. -/
theorem match_station_locations_order (pf : String → Option ℚ)
    (station_order : List String) (registryRows : List StationRow) :
    (match_station_locations pf station_order registryRows).1.Pairwise
      (fun a b => a.order < b.order) ∧
    ∀ m ∈ (match_station_locations pf station_order registryRows).1,
      1 ≤ m.order ∧ station_order[m.order - 1]? = some m.station := by
  refine ⟨matchLoop_pairwise pf (build_station_lookup registryRows) station_order 1,
    fun m hm => ?_⟩
  obtain ⟨_, h2, h3⟩ := matchLoop_resolved pf (build_station_lookup registryRows)
    station_order 1 m hm
  exact ⟨h2, h3⟩

set_option maxRecDepth 8192 in
theorem match_station_locations_order_witness :
    1 ≤ (1 : Nat) ∧ sampleStations[(1 : Nat) - 1]? = some "Chan Sow Lin" :=
  (match_station_locations_order samplePf sampleStations sampleRegistry).2
    ⟨"Chan Sow Lin", 1, 3, 101⟩ (by with_unfolding_all decide)

/-! ## Python dictionaries as insertion-ordered association lists -/

/-- First-match association lookup (`dict.get`). -/
def alookup {κ ν : Type} [DecidableEq κ] : List (κ × ν) → κ → Option ν
  | [], _ => none
  | (k', v) :: rest, k => if k' = k then some v else alookup rest k

/-- `d[k] = upd(d[k])` when `k` is present, `d[k] = init` otherwise:
update in place preserving insertion order, else append. -/
def pyDictUpd {κ ν : Type} [DecidableEq κ] (upd : ν → ν) (init : ν) :
    List (κ × ν) → κ → List (κ × ν)
  | [], k => [(k, init)]
  | (k', v) :: rest, k =>
    if k' = k then (k', upd v) :: rest else (k', v) :: pyDictUpd upd init rest k

theorem alookup_pyDictUpd {κ ν : Type} [DecidableEq κ] (upd : ν → ν) (init : ν) :
    ∀ (l : List (κ × ν)) (k q : κ),
      alookup (pyDictUpd upd init l k) q =
        if q = k then
          some (match alookup l k with | none => init | some v => upd v)
        else alookup l q
  | [], k, q => by
    by_cases hq : q = k
    · subst hq
      simp [pyDictUpd, alookup]
    · rw [if_neg hq]
      simp only [pyDictUpd, alookup]
      rw [if_neg (fun h : k = q => hq h.symm)]
  | (k', v) :: rest, k, q => by
    simp only [pyDictUpd]
    by_cases hk : k' = k
    · subst hk
      rw [if_pos rfl]
      by_cases hq : q = k'
      · subst hq
        simp [alookup]
      · rw [if_neg hq]
        simp only [alookup]
        rw [if_neg (fun h : k' = q => hq h.symm), if_neg (fun h : k' = q => hq h.symm)]
    · rw [if_neg hk]
      by_cases hq : k' = q
      · rw [if_neg (fun h : q = k => hk (hq.trans h))]
        simp only [alookup]
        rw [if_pos hq, if_pos hq]
      · simp only [alookup]
        rw [if_neg hq, if_neg hq, alookup_pyDictUpd upd init rest k q, if_neg hk]

theorem pyDictUpd_keys {κ ν : Type} [DecidableEq κ] (upd : ν → ν) (init : ν) :
    ∀ (l : List (κ × ν)) (k : κ), ∀ x ∈ (pyDictUpd upd init l k).map Prod.fst,
      x ∈ l.map Prod.fst ∨ x = k
  | [], k, x, hx => by
    simp [pyDictUpd] at hx
    exact Or.inr hx
  | (k', v) :: rest, k, x, hx => by
    simp only [pyDictUpd] at hx
    by_cases hk : k' = k
    · rw [if_pos hk] at hx
      simp at hx
      rcases hx with hx | hx
      · exact Or.inl (by simp [hx])
      · exact Or.inl (by simp; exact Or.inr hx)
    · rw [if_neg hk] at hx
      simp at hx
      rcases hx with hx | hx
      · exact Or.inl (by simp [hx])
      · rcases pyDictUpd_keys upd init rest k x (by simpa using hx) with h | h
        · exact Or.inl (by simp; exact Or.inr (by simpa using h))
        · exact Or.inr h

theorem pyDictUpd_nodup {κ ν : Type} [DecidableEq κ] (upd : ν → ν) (init : ν) :
    ∀ (l : List (κ × ν)) (k : κ), (l.map Prod.fst).Nodup →
      ((pyDictUpd upd init l k).map Prod.fst).Nodup
  | [], k, _ => by simp [pyDictUpd]
  | (k', v) :: rest, k, h => by
    simp only [pyDictUpd]
    rw [List.map_cons] at h
    rcases List.nodup_cons.1 h with ⟨hk', hrest⟩
    by_cases hk : k' = k
    · rw [if_pos hk, List.map_cons]
      exact List.nodup_cons.2 ⟨hk', hrest⟩
    · rw [if_neg hk]
      simp only [List.map_cons, List.nodup_cons]
      refine ⟨fun hmem => ?_, pyDictUpd_nodup upd init rest k hrest⟩
      rcases pyDictUpd_keys upd init rest k k' hmem with h1 | h1
      · exact hk' h1
      · exact hk h1

theorem alookup_of_mem {κ ν : Type} [DecidableEq κ] :
    ∀ (l : List (κ × ν)), (l.map Prod.fst).Nodup → ∀ kv ∈ l, alookup l kv.1 = some kv.2
  | [], _, kv, hkv => by simp at hkv
  | (k', v) :: rest, h, kv, hkv => by
    rw [List.map_cons] at h
    rcases List.nodup_cons.1 h with ⟨hk', hrest⟩
    rcases List.mem_cons.1 hkv with h1 | h1
    · subst h1
      simp [alookup]
    · have hne : ¬ k' = kv.1 := by
        intro he
        exact hk' (he ▸ List.mem_map.2 ⟨kv, h1, rfl⟩)
      simp only [alookup, if_neg hne]
      exact alookup_of_mem rest hrest kv h1

theorem mem_of_alookup {κ ν : Type} [DecidableEq κ] :
    ∀ (l : List (κ × ν)) (k : κ) (v : ν), alookup l k = some v → (k, v) ∈ l
  | [], k, v, h => by simp [alookup] at h
  | (k', v') :: rest, k, v, h => by
    simp only [alookup] at h
    by_cases hk : k' = k
    · rw [if_pos hk] at h
      simp only [Option.some.injEq] at h
      subst hk
      subst h
      exact List.mem_cons_self _ _
    · rw [if_neg hk] at h
      exact List.mem_cons_of_mem _ (mem_of_alookup rest k v h)

/-! ## Python string ordering (code-point lexicographic) -/

/-- Lexicographic `≤` on character lists by code point, as Python compares
strings. -/
def strLeB : List Char → List Char → Bool
  | [], _ => true
  | _ :: _, [] => false
  | a :: as, b :: bs =>
    if a.toNat < b.toNat then true
    else if b.toNat < a.toNat then false
    else strLeB as bs

theorem strLeB_total : ∀ a b : List Char, (strLeB a b || strLeB b a) = true
  | [], _ => by simp [strLeB]
  | _ :: _, [] => by simp [strLeB]
  | a :: as, b :: bs => by
    simp only [strLeB]
    by_cases h1 : a.toNat < b.toNat
    · simp [h1]
    · by_cases h2 : b.toNat < a.toNat
      · simp [h1, h2]
      · simpa [h1, h2] using strLeB_total as bs

theorem strLeB_antisymm : ∀ a b : List Char,
    strLeB a b = true → strLeB b a = true → a = b
  | [], [], _, _ => rfl
  | [], _ :: _, _, h => by simp [strLeB] at h
  | _ :: _, [], h, _ => by simp [strLeB] at h
  | a :: as, b :: bs, h1, h2 => by
    simp only [strLeB] at h1 h2
    by_cases hab : a.toNat < b.toNat
    · rw [if_neg (by omega), if_pos hab] at h2
      exact absurd h2 (by simp)
    · by_cases hba : b.toNat < a.toNat
      · rw [if_neg hab, if_pos hba] at h1
        exact absurd h1 (by simp)
      · rw [if_neg hab, if_neg hba] at h1
        rw [if_neg hba, if_neg hab] at h2
        have hn : a.toNat = b.toNat := by omega
        have hc : a = b := Char.ext (UInt32.ext_iff.2 (by simpa [Char.toNat] using hn))
        rw [hc, strLeB_antisymm as bs h1 h2]

theorem strLeB_trans : ∀ a b c : List Char,
    strLeB a b = true → strLeB b c = true → strLeB a c = true
  | [], _, _, _, _ => by simp [strLeB]
  | _ :: _, [], _, h, _ => by simp [strLeB] at h
  | _ :: _, _ :: _, [], _, h => by simp [strLeB] at h
  | a :: as, b :: bs, c :: cs, h1, h2 => by
    simp only [strLeB] at h1 h2 ⊢
    by_cases hab : a.toNat < b.toNat
    · by_cases hbc : b.toNat < c.toNat
      · rw [if_pos (by omega)]
      · by_cases hcb : c.toNat < b.toNat
        · rw [if_neg hbc, if_pos hcb] at h2
          exact absurd h2 (by simp)
        · rw [if_pos (by omega)]
    · by_cases hba : b.toNat < a.toNat
      · rw [if_neg hab, if_pos hba] at h1
        exact absurd h1 (by simp)
      · rw [if_neg hab, if_neg hba] at h1
        by_cases hbc : b.toNat < c.toNat
        · rw [if_pos (by omega)]
        · by_cases hcb : c.toNat < b.toNat
          · rw [if_neg hbc, if_pos hcb] at h2
            exact absurd h2 (by simp)
          · rw [if_neg hbc, if_neg hcb] at h2
            rw [if_neg (by omega), if_neg (by omega)]
            exact strLeB_trans as bs cs h1 h2

/-! ## `build_state_bus_counts` (prepare_transport_data.py, lines 24-74) -/

/-- A row of the bus-terminal CSV, reduced to the two consulted columns
`"State"` and `"Terminal / Station"`. -/
structure BusRow where
  state : String
  terminal : String
deriving DecidableEq, Repr

/-- The `BUS_STATE_COORDS` table of `prepare_transport_data.py`. -/
def BUS_STATE_COORDS : List (String × (ℚ × ℚ)) :=
  [("Johor", (1.4847, 103.7618)),
   ("Kedah", (6.1184, 100.3685)),
   ("Kelantan", (5.2852, 102.0030)),
   ("Kuala Lumpur", (3.1390, 101.6869)),
   ("Melaka", (2.1896, 102.2501)),
   ("Negeri Sembilan", (2.7258, 102.1400)),
   ("Pahang", (3.7956, 102.4381)),
   ("Penang", (5.4141, 100.3290)),
   ("Perak", (4.5921, 101.0901)),
   ("Perlis", (6.4440, 100.2040)),
   ("Sabah", (5.9788, 116.0753)),
   ("Sarawak", (1.5533, 110.3592)),
   ("Selangor", (3.0738, 101.5183)),
   ("Terengganu", (5.3290, 103.1412))]

/-- The grouping loop of `build_state_bus_counts`: a
`defaultdict(list)` keyed by state, appending terminal names. -/
def groupRows : List BusRow → List (String × List String) → List (String × List String)
  | [], grouped => grouped
  | row :: rest, grouped =>
    let state := pyStripStr row.state
    let terminal := pyStripStr row.terminal
    if state = "" ∨ terminal = "" then groupRows rest grouped
    else groupRows rest (pyDictUpd (fun ts => ts ++ [terminal]) [terminal] grouped state)

/-- One output record of `build_state_bus_counts`. -/
structure BusStateRecord where
  state : String
  terminal_count : Nat
  sample_terminals : List String
  latitude : ℚ
  longitude : ℚ
deriving DecidableEq, Repr

/-- Descending-by-count comparison used by
`records.sort(key=..., reverse=True)`. -/
def busLe (a b : BusStateRecord) : Bool := decide (b.terminal_count ≤ a.terminal_count)

/-- `build_state_bus_counts` of `prepare_transport_data.py`. -/
def build_state_bus_counts (rows : List BusRow) : List BusStateRecord :=
  let grouped := groupRows rows []
  let records := grouped.filterMap (fun kv =>
    match alookup BUS_STATE_COORDS kv.1 with
    | none => none
    | some ll =>
      some ⟨kv.1, kv.2.length,
            (kv.2.mergeSort (fun a b => strLeB a.data b.data)).take 5, ll.1, ll.2⟩)
  records.mergeSort busLe

/-- The terminal names a given state collects, as the spec describes them:
rows in order whose stripped state equals it, both fields non-blank. -/
def terminalsOf (rows : List BusRow) (state : String) : List String :=
  rows.filterMap (fun row =>
    if pyStripStr row.state = state ∧ pyStripStr row.state ≠ "" ∧
       pyStripStr row.terminal ≠ ""
    then some (pyStripStr row.terminal) else none)

theorem groupRows_alookup :
    ∀ (rows : List BusRow) (grouped : List (String × List String)) (s : String),
      alookup (groupRows rows grouped) s =
        match alookup grouped s with
        | some cur => some (cur ++ terminalsOf rows s)
        | none =>
          if terminalsOf rows s = [] then none else some (terminalsOf rows s)
  | [], grouped, s => by
    simp only [groupRows, terminalsOf, List.filterMap_nil]
    rcases alookup grouped s with _ | cur
    · rfl
    · simp
  | row :: rest, grouped, s => by
    simp only [groupRows]
    by_cases hskip : pyStripStr row.state = "" ∨ pyStripStr row.terminal = ""
    · rw [if_pos hskip]
      have hcond : ¬ (pyStripStr row.state = s ∧ pyStripStr row.state ≠ "" ∧
          pyStripStr row.terminal ≠ "") := by
        rcases hskip with h | h <;> simp [h]
      have hterm : terminalsOf (row :: rest) s = terminalsOf rest s := by
        simp only [terminalsOf, List.filterMap_cons, if_neg hcond]
      rw [hterm]
      exact groupRows_alookup rest grouped s
    · rw [if_neg hskip]
      push_neg at hskip
      obtain ⟨hst, htm⟩ := hskip
      by_cases hs : s = pyStripStr row.state
      · have hterm : terminalsOf (row :: rest) s =
            pyStripStr row.terminal :: terminalsOf rest s := by
          have hcondp : pyStripStr row.state = s ∧ pyStripStr row.state ≠ "" ∧
              pyStripStr row.terminal ≠ "" := ⟨hs.symm, hst, htm⟩
          simp only [terminalsOf, List.filterMap_cons, if_pos hcondp]
        rw [hterm, groupRows_alookup rest _ s, alookup_pyDictUpd, if_pos hs, ← hs]
        rcases alookup grouped s with _ | cur
        · simp
        · simp
      · have hcond : ¬ (pyStripStr row.state = s ∧ pyStripStr row.state ≠ "" ∧
            pyStripStr row.terminal ≠ "") := fun h => hs h.1.symm
        have hterm : terminalsOf (row :: rest) s = terminalsOf rest s := by
          simp only [terminalsOf, List.filterMap_cons, if_neg hcond]
        rw [hterm, groupRows_alookup rest _ s, alookup_pyDictUpd,
            if_neg (fun h : s = pyStripStr row.state => hs h)]

theorem groupRows_nodup :
    ∀ (rows : List BusRow) (grouped : List (String × List String)),
      (grouped.map Prod.fst).Nodup → ((groupRows rows grouped).map Prod.fst).Nodup
  | [], _, h => h
  | row :: rest, grouped, h => by
    simp only [groupRows]
    by_cases hskip : pyStripStr row.state = "" ∨ pyStripStr row.terminal = ""
    · rw [if_pos hskip]
      exact groupRows_nodup rest grouped h
    · rw [if_neg hskip]
      exact groupRows_nodup rest _ (pyDictUpd_nodup _ _ grouped _ h)

/-- C8: `build_state_bus_counts` keeps exactly the states of
`BUS_STATE_COORDS` (unknown states are silently excluded), sorts records
descending by terminal count, and samples the first five terminals in
ascending (code-point) order. -/
theorem build_state_bus_counts_spec (rows : List BusRow) :
    ((build_state_bus_counts rows).Pairwise (fun a b => busLe a b = true)) ∧
    (∀ rec ∈ build_state_bus_counts rows,
      alookup BUS_STATE_COORDS rec.state = some (rec.latitude, rec.longitude) ∧
      rec.terminal_count = (terminalsOf rows rec.state).length ∧
      rec.sample_terminals =
        ((terminalsOf rows rec.state).mergeSort
          (fun a b => strLeB a.data b.data)).take 5) ∧
    (∀ state, terminalsOf rows state ≠ [] →
      ((∃ rec ∈ build_state_bus_counts rows, rec.state = state) ↔
        (alookup BUS_STATE_COORDS state).isSome)) := by
  have hmem : ∀ rec, rec ∈ build_state_bus_counts rows ↔
      ∃ kv ∈ groupRows rows [],
        ∃ ll, alookup BUS_STATE_COORDS kv.1 = some ll ∧
          rec = ⟨kv.1, kv.2.length,
                 (kv.2.mergeSort (fun a b => strLeB a.data b.data)).take 5,
                 ll.1, ll.2⟩ := by
    intro rec
    simp only [build_state_bus_counts, List.mem_mergeSort, List.mem_filterMap]
    constructor
    · rintro ⟨kv, hkv, hsome⟩
      rcases hll : alookup BUS_STATE_COORDS kv.1 with _ | ll
      · rw [hll] at hsome; exact absurd hsome (by simp)
      · rw [hll] at hsome
        simp only [Option.some.injEq] at hsome
        exact ⟨kv, hkv, ll, hll, hsome.symm⟩
    · rintro ⟨kv, hkv, ll, hll, hrec⟩
      refine ⟨kv, hkv, ?_⟩
      rw [hll, hrec]
    -- both directions
  have hlook : ∀ kv, kv ∈ groupRows rows [] →
      kv.2 = terminalsOf rows kv.1 ∧ terminalsOf rows kv.1 ≠ [] := by
    intro kv hkv
    have hnd := groupRows_nodup rows [] (by simp)
    have h1 := alookup_of_mem _ hnd kv hkv
    rw [groupRows_alookup rows [] kv.1] at h1
    simp only [alookup] at h1
    by_cases hterm : terminalsOf rows kv.1 = []
    · rw [if_pos hterm] at h1
      exact absurd h1 (by simp)
    · rw [if_neg hterm] at h1
      simp only [Option.some.injEq] at h1
      exact ⟨h1.symm, hterm⟩
  refine ⟨?_, ?_, ?_⟩
  · apply List.sorted_mergeSort
    · intro a b c hab hbc
      simp only [busLe, decide_eq_true_eq] at hab hbc ⊢
      omega
    · intro a b
      simp only [busLe]
      rcases Nat.le_total b.terminal_count a.terminal_count with h | h <;> simp [h]
  · intro rec hrec
    obtain ⟨kv, hkv, ll, hll, hrec⟩ := (hmem rec).1 hrec
    obtain ⟨hterms, _⟩ := hlook kv hkv
    subst hrec
    rw [← hterms]
    exact ⟨hll, rfl, rfl⟩
  · intro state hterm
    constructor
    · rintro ⟨rec, hrec, hstate⟩
      obtain ⟨kv, hkv, ll, hll, hrec⟩ := (hmem rec).1 hrec
      subst hrec
      simp only at hstate
      rw [hstate] at hll
      simp [hll]
    · intro hsome
      rcases hll : alookup BUS_STATE_COORDS state with _ | ll
      · rw [hll] at hsome; simp at hsome
      · have h1 : alookup (groupRows rows []) state = some (terminalsOf rows state) := by
          rw [groupRows_alookup rows [] state]
          simp only [alookup]
          rw [if_neg hterm]
        have h2 := mem_of_alookup _ _ _ h1
        refine ⟨⟨state, (terminalsOf rows state).length,
          ((terminalsOf rows state).mergeSort (fun a b => strLeB a.data b.data)).take 5,
          ll.1, ll.2⟩, ?_, rfl⟩
        exact (hmem _).2 ⟨(state, terminalsOf rows state), h2, ll, hll, rfl⟩

theorem build_state_bus_counts_spec_witness :
    terminalsOf [⟨"Johor", "Larkin Sentral"⟩, ⟨"Atlantis", "Aquatown"⟩] "Johor" ≠ [] ∧
    ((∃ rec ∈ build_state_bus_counts
        [⟨"Johor", "Larkin Sentral"⟩, ⟨"Atlantis", "Aquatown"⟩],
        rec.state = "Johor") ↔
      (alookup BUS_STATE_COORDS "Johor").isSome) :=
  ⟨by decide,
   (build_state_bus_counts_spec
     [⟨"Johor", "Larkin Sentral"⟩, ⟨"Atlantis", "Aquatown"⟩]).2.2 "Johor" (by decide)⟩

/-! ## `build_rail_monthly_ridership` (prepare_transport_data.py, lines 101-157) -/

/-- A ridership CSV row as a field-name/value association. -/
abbrev CsvRow := List (String × String)

/-- The `RAIL_FIELDS` table of `prepare_transport_data.py`. -/
def RAIL_FIELDS : List (String × String) :=
  [("rail_lrt_ampang", "LRT Ampang"),
   ("rail_lrt_kj", "LRT Kelana Jaya"),
   ("rail_mrt_kajang", "MRT Kajang"),
   ("rail_mrt_pjy", "MRT Putrajaya"),
   ("rail_monorail", "KL Monorail"),
   ("rail_komuter", "KTM Komuter"),
   ("rail_komuter_utara", "KTM Komuter Utara"),
   ("rail_ets", "ETS"),
   ("rail_intercity", "Intercity"),
   ("rail_tebrau", "Shuttle Tebrau")]

/-- Gregorian leap year. -/
def isLeap (y : Nat) : Bool := y % 4 == 0 && (y % 100 != 0 || y % 400 == 0)

/-- Days in a month. -/
def monthLength (y m : Nat) : Nat :=
  if m = 2 then (if isLeap y then 29 else 28)
  else if m = 4 ∨ m = 6 ∨ m = 9 ∨ m = 11 then 30 else 31

/-- A `%m`-style field: one or two digits (CPython regex
`1[0-2]|0[1-9]|[1-9]`, the numeric range being checked afterwards). -/
def parseNum2 (l : List Char) : Option Nat :=
  if l ≠ [] ∧ l.length ≤ 2 ∧ l.all Char.isDigit then some (digitsVal l) else none

/-- A `%d`-style field: one or two digits, or CPython's `" [1-9]"`
space-padded alternative. -/
def parseDay (l : List Char) : Option Nat :=
  match l with
  | [' ', c] => if c.isDigit ∧ c ≠ '0' then some (digitsVal [c]) else none
  | _ => parseNum2 l

/-- A `%Y` field: exactly four digits (CPython regex `\d\d\d\d`). -/
def parseYear4 (l : List Char) : Option Nat :=
  if l.length = 4 ∧ l.all Char.isDigit then some (digitsVal l) else none

/-- Shared field validation of `datetime.strptime` for the two slash
formats: month, day and year fields with CPython's per-field regexes,
then the `datetime` constructor's range checks (month 1-12, calendar-valid
day, year at least `MINYEAR = 1`); returns `(year, month)`. -/
def parseDateFields (ms ds ys : List Char) : Option (Nat × Nat) :=
  match parseNum2 ms, parseDay ds, parseYear4 ys with
  | some m, some d, some y =>
    if 1 ≤ m ∧ m ≤ 12 ∧ 1 ≤ d ∧ d ≤ monthLength y m ∧ 1 ≤ y
    then some (y, m) else none
  | _, _, _ => none

/-- `datetime.strptime(s, "%m/%d/%Y")`, reduced to `(year, month)`. -/
def parseMDY (s : String) : Option (Nat × Nat) :=
  match s.data.splitOn '/' with
  | [ms, ds, ys] => parseDateFields ms ds ys
  | _ => none

/-- `datetime.strptime(s, "%d/%m/%Y")`, reduced to `(year, month)`. -/
def parseDMY (s : String) : Option (Nat × Nat) :=
  match s.data.splitOn '/' with
  | [ds, ms, ys] => parseDateFields ms ds ys
  | _ => none

/-- Lines 118-129 of `prepare_transport_data.py`: strip the date cell,
skip blank dates, try `%m/%d/%Y` first and `%d/%m/%Y` on failure. -/
def rowDate (row : CsvRow) : Option (Nat × Nat) :=
  let date_raw := pyStripStr ((alookup row "date").getD "")
  if date_raw = "" then none
  else
    match parseMDY date_raw with
    | some ym => some ym
    | none => parseDMY date_raw

/-- Zero-padded numeral of width `w`. -/
def padNum (w n : Nat) : List Char :=
  let ds := Nat.toDigits 10 n
  List.replicate (w - ds.length) '0' ++ ds

/-- `date_obj.strftime("%Y-%m")`: platform `strftime` does not zero-pad
`%Y`, while `%m` is always two digits. -/
def monthKey (y m : Nat) : String := ⟨Nat.toDigits 10 y ++ '-' :: padNum 2 m⟩

/-- Python `str.replace(",", "")`. -/
def removeCommas (s : String) : String := ⟨pyReplace ',' [] s.data⟩

/-- Python `int(...)` on a float value: truncation toward zero. -/
def truncQ (q : ℚ) : ℤ := if 0 ≤ q then ⌊q⌋ else ⌈q⌉

/-- Lines 133-139 of `prepare_transport_data.py`: strip commas and
whitespace from a mode cell, skip blanks, `int(float(...))` with
`ValueError` skipped. -/
def parseModeCell (pf : String → Option ℚ) (cell : String) : Option ℤ :=
  let v := pyStripStr (removeCommas cell)
  if v = "" then none else (pf v).map truncQ

/-- Python `round(...)`: round half to even. -/
def pyRound (q : ℚ) : ℤ :=
  if q - ⌊q⌋ < 1/2 then ⌊q⌋
  else if 1/2 < q - ⌊q⌋ then ⌊q⌋ + 1
  else if ⌊q⌋ % 2 = 0 then ⌊q⌋ else ⌊q⌋ + 1

/-- One output record of `build_rail_monthly_ridership`. -/
structure RidershipRecord where
  month : String
  mode : String
  average_ridership : ℤ
deriving DecidableEq, Repr

/-- The inner `for field_name, label in RAIL_FIELDS` loop, updating the
aggregates dictionary keyed by `(label, month_key)`. -/
def processFields (pf : String → Option ℚ) (row : CsvRow) (month : String) :
    List ((String × String) × (ℤ × Nat)) → List (String × String) →
    List ((String × String) × (ℤ × Nat))
  | aggs, [] => aggs
  | aggs, fl :: fs =>
    match parseModeCell pf ((alookup row fl.1).getD "") with
    | none => processFields pf row month aggs fs
    | some v =>
      processFields pf row month
        (pyDictUpd (fun tc => (tc.1 + v, tc.2 + 1)) (v, 1) aggs (fl.2, month)) fs

/-- The outer row loop of `build_rail_monthly_ridership`. -/
def processRows (pf : String → Option ℚ) :
    List CsvRow → List ((String × String) × (ℤ × Nat)) →
    List ((String × String) × (ℤ × Nat))
  | [], aggs => aggs
  | row :: rest, aggs =>
    match rowDate row with
    | none => processRows pf rest aggs
    | some ym =>
      processRows pf rest (processFields pf row (monthKey ym.1 ym.2) aggs RAIL_FIELDS)

/-- Ascending `(mode, month)` comparison used by the final sort. -/
def railLe (a b : RidershipRecord) : Bool :=
  if a.mode = b.mode then strLeB a.month.data b.month.data
  else strLeB a.mode.data b.mode.data

/-- `build_rail_monthly_ridership` of `prepare_transport_data.py`. -/
def build_rail_monthly_ridership (pf : String → Option ℚ) (rows : List CsvRow) :
    List RidershipRecord :=
  let aggs := processRows pf rows []
  let tidy := aggs.filterMap (fun kv =>
    if kv.2.2 = 0 then none
    else some ⟨kv.1.2, kv.1.1, pyRound ((kv.2.1 : ℚ) / (kv.2.2 : ℚ))⟩)
  tidy.mergeSort railLe

/-- The observations of a `(mode label, month)` bucket as the spec words
them: over rows in order, a value is contributed when the row's date
parses (`%m/%d/%Y` first, `%d/%m/%Y` on failure) to that month and the
labelled mode cell is accepted. -/
def obsFor (pf : String → Option ℚ) (rows : List CsvRow) (label month : String) :
    List ℤ :=
  rows.flatMap (fun row =>
    match rowDate row with
    | none => []
    | some ym =>
      if monthKey ym.1 ym.2 = month then
        RAIL_FIELDS.filterMap (fun fl =>
          if fl.2 = label then parseModeCell pf ((alookup row fl.1).getD "")
          else none)
      else [])

theorem dropWhile_head_not {α : Type} {p : α → Bool} :
    ∀ (l : List α) (c : α), (l.dropWhile p).head? = some c → ¬ p c = true
  | [], c, h => by simp at h
  | x :: xs, c, h => by
    by_cases hx : p x
    · rw [List.dropWhile_cons_of_pos hx] at h
      exact dropWhile_head_not xs c h
    · rw [List.dropWhile_cons_of_neg hx] at h
      simp at h
      subst h
      exact hx

theorem dropWhile_getLast_of_ne_nil {α : Type} {p : α → Bool} :
    ∀ (l : List α), l.dropWhile p ≠ [] → (l.dropWhile p).getLast? = l.getLast?
  | [], h => absurd rfl h
  | x :: xs, h => by
    by_cases hx : p x
    · rw [List.dropWhile_cons_of_pos hx] at h ⊢
      have hxs : xs ≠ [] := by
        intro he
        subst he
        simp [List.dropWhile] at h
      rw [dropWhile_getLast_of_ne_nil xs h]
      have : x :: xs = [x] ++ xs := rfl
      rw [this, List.getLast?_append]
      rcases hlast : xs.getLast? with _ | c
      · exact absurd (List.getLast?_eq_none_iff.1 hlast) hxs
      · rfl
    · rw [List.dropWhile_cons_of_neg hx]

theorem pyStrip_idem (l : List Char) : pyStrip (pyStrip l) = pyStrip l := by
  apply pyStrip_eq_self
  · intro c hc
    unfold pyStrip at hc
    rw [List.head?_reverse] at hc
    have hne : (l.dropWhile Char.isWhitespace).reverse.dropWhile Char.isWhitespace ≠ [] := by
      intro he
      rw [he] at hc
      simp at hc
    rw [dropWhile_getLast_of_ne_nil _ hne, List.getLast?_reverse] at hc
    exact dropWhile_head_not _ c hc
  · intro c hc
    unfold pyStrip at hc
    rw [List.getLast?_reverse] at hc
    exact dropWhile_head_not _ c hc

theorem pyFloat_pyStripStr (s : String) : pyFloat (pyStripStr s) = pyFloat s := by
  show pyFloatCore (pyStrip (pyStripStr s).data) = pyFloatCore (pyStrip s.data)
  rw [show (pyStripStr s).data = pyStrip s.data from rfl, pyStrip_idem]

set_option maxRecDepth 16384 in
set_option maxHeartbeats 1000000 in
/-- C10: a mode cell contributes a value exactly when, after removing all
commas, it is non-blank and parses as a float, and the contributed value
is the parsed float truncated toward zero; `"1,234.9"` contributes `1234`,
both at cell level and through `build_rail_monthly_ridership`. -/
theorem parseModeCell_truncation :
    (∀ cell : String,
      parseModeCell pyFloat cell =
        if removeCommas cell = "" then none
        else (pyFloat (removeCommas cell)).map truncQ) ∧
    parseModeCell pyFloat "1,234.9" = some 1234 ∧
    build_rail_monthly_ridership pyFloat
        [[("date", "01/15/2022"), ("rail_lrt_ampang", "1,234.9")]] =
      [⟨"2022-01", "LRT Ampang", 1234⟩] := by
  refine ⟨?_, by with_unfolding_all decide, by with_unfolding_all decide⟩
  intro cell
  show (if pyStripStr (removeCommas cell) = "" then none
        else (pyFloat (pyStripStr (removeCommas cell))).map truncQ) = _
  by_cases hv : pyStripStr (removeCommas cell) = ""
  · rw [if_pos hv]
    by_cases hu : removeCommas cell = ""
    · rw [if_pos hu]
    · rw [if_neg hu]
      have hdata : pyStrip (removeCommas cell).data = [] := congrArg String.data hv
      have : pyFloat (removeCommas cell) = none := by
        show pyFloatCore (pyStrip (removeCommas cell).data) = none
        rw [hdata]
        rfl
      rw [this]
      rfl
  · rw [if_neg hv, if_neg (fun hu : removeCommas cell = "" => hv (by rw [hu]; rfl)),
        pyFloat_pyStripStr]

/-- Folding a batch of observations into an aggregate entry. -/
def combineAgg (o : Option (ℤ × Nat)) (vs : List ℤ) : Option (ℤ × Nat) :=
  match o with
  | some tc => some (tc.1 + vs.sum, tc.2 + vs.length)
  | none => if vs = [] then none else some (vs.sum, vs.length)

theorem combineAgg_nil (o : Option (ℤ × Nat)) : combineAgg o [] = o := by
  rcases o with _ | ⟨t, c⟩ <;> simp [combineAgg]

theorem combineAgg_append (o : Option (ℤ × Nat)) (xs ys : List ℤ) :
    combineAgg o (xs ++ ys) = combineAgg (combineAgg o xs) ys := by
  rcases o with _ | ⟨t, c⟩
  · by_cases hxs : xs = []
    · subst hxs
      simp [combineAgg]
    · simp only [combineAgg, if_neg hxs,
        if_neg (List.append_ne_nil_of_left_ne_nil hxs ys)]
      by_cases hys : ys = []
      · subst hys
        simp
      · simp [add_comm, add_assoc, add_left_comm]
  · simp [combineAgg, add_assoc]

theorem processFields_alookup (pf : String → Option ℚ) (row : CsvRow)
    (month : String) :
    ∀ (fields : List (String × String))
      (aggs : List ((String × String) × (ℤ × Nat))) (key : String × String),
      alookup (processFields pf row month aggs fields) key =
        combineAgg (alookup aggs key)
          (fields.filterMap (fun fl =>
            if fl.2 = key.1 ∧ month = key.2
            then parseModeCell pf ((alookup row fl.1).getD "") else none))
  | [], aggs, key => by
    simp only [processFields, List.filterMap_nil, combineAgg_nil]
  | fl :: fs, aggs, key => by
    simp only [processFields]
    rcases hp : parseModeCell pf ((alookup row fl.1).getD "") with _ | v
    · have hfl : (fun fl : String × String =>
          if fl.2 = key.1 ∧ month = key.2
          then parseModeCell pf ((alookup row fl.1).getD "") else none) fl = none := by
        by_cases hc : fl.2 = key.1 ∧ month = key.2 <;> simp [hc, hp]
      simp only [List.filterMap_cons, hfl]
      exact processFields_alookup pf row month fs aggs key
    · by_cases hk : fl.2 = key.1 ∧ month = key.2
      · have hkey : (fl.2, month) = key := by
          obtain ⟨k1, k2⟩ := key
          simp only [Prod.mk.injEq]
          exact ⟨hk.1, hk.2⟩
        have hfl : (fun fl : String × String =>
            if fl.2 = key.1 ∧ month = key.2
            then parseModeCell pf ((alookup row fl.1).getD "") else none) fl = some v := by
          simp [hk, hp]
        simp only [List.filterMap_cons, hfl]
        rw [processFields_alookup pf row month fs _ key, alookup_pyDictUpd,
            if_pos hkey.symm, hkey]
        rcases ho : alookup aggs key with _ | ⟨t, c⟩
        · simp only [combineAgg, List.sum_cons, List.length_cons]
          by_cases hcs : (fs.filterMap (fun fl : String × String =>
              if fl.2 = key.1 ∧ month = key.2
              then parseModeCell pf ((alookup row fl.1).getD "") else none)) = []
          · rw [hcs]
            simp
          · rw [if_neg (by simp)]
            simp [Nat.add_comm]
        · simp only [combineAgg, List.sum_cons, List.length_cons]
          simp [add_assoc, add_comm, add_left_comm, Nat.add_assoc, Nat.add_comm,
            Nat.add_left_comm]
      · have hfl : (fun fl : String × String =>
            if fl.2 = key.1 ∧ month = key.2
            then parseModeCell pf ((alookup row fl.1).getD "") else none) fl = none := by
          simp [hk]
        simp only [List.filterMap_cons, hfl]
        rw [processFields_alookup pf row month fs _ key, alookup_pyDictUpd,
            if_neg (fun he : key = (fl.2, month) => hk ⟨by rw [he], by rw [he]⟩)]

theorem processRows_alookup (pf : String → Option ℚ) :
    ∀ (rows : List CsvRow) (aggs : List ((String × String) × (ℤ × Nat)))
      (key : String × String),
      alookup (processRows pf rows aggs) key =
        combineAgg (alookup aggs key) (obsFor pf rows key.1 key.2)
  | [], aggs, key => by
    simp only [processRows, obsFor, List.flatMap_nil, combineAgg_nil]
  | row :: rest, aggs, key => by
    simp only [processRows]
    rcases hd : rowDate row with _ | ym
    · have hobs : obsFor pf (row :: rest) key.1 key.2 =
          obsFor pf rest key.1 key.2 := by
        simp only [obsFor, List.flatMap_cons, hd, List.nil_append]
      rw [hobs]
      exact processRows_alookup pf rest aggs key
    · have hpiece : obsFor pf (row :: rest) key.1 key.2 =
          (if monthKey ym.1 ym.2 = key.2 then
            RAIL_FIELDS.filterMap (fun fl =>
              if fl.2 = key.1 then parseModeCell pf ((alookup row fl.1).getD "")
              else none)
          else []) ++ obsFor pf rest key.1 key.2 := by
        simp only [obsFor, List.flatMap_cons, hd]
      rw [hpiece, processRows_alookup pf rest _ key,
          processFields_alookup pf row (monthKey ym.1 ym.2) RAIL_FIELDS aggs key,
          combineAgg_append]
      by_cases hmk : monthKey ym.1 ym.2 = key.2
      · rw [if_pos hmk]
        have hfun : (fun fl : String × String =>
            if fl.2 = key.1 ∧ monthKey ym.1 ym.2 = key.2
            then parseModeCell pf ((alookup row fl.1).getD "") else none) =
            (fun fl : String × String =>
            if fl.2 = key.1 then parseModeCell pf ((alookup row fl.1).getD "")
            else none) := by
          funext fl
          by_cases hc : fl.2 = key.1
          · rw [if_pos ⟨hc, hmk⟩, if_pos hc]
          · rw [if_neg (fun h => hc h.1), if_neg hc]
        rw [hfun]
      · rw [if_neg hmk]
        have hnil : (RAIL_FIELDS.filterMap (fun fl : String × String =>
            if fl.2 = key.1 ∧ monthKey ym.1 ym.2 = key.2
            then parseModeCell pf ((alookup row fl.1).getD "") else none)) = [] := by
          apply List.filterMap_eq_nil_iff.2
          intro fl _
          rw [if_neg (fun h => hmk h.2)]
        rw [hnil]

theorem processFields_nodup (pf : String → Option ℚ) (row : CsvRow) (month : String) :
    ∀ (fields : List (String × String))
      (aggs : List ((String × String) × (ℤ × Nat))),
      (aggs.map Prod.fst).Nodup →
      ((processFields pf row month aggs fields).map Prod.fst).Nodup
  | [], _, h => h
  | fl :: fs, aggs, h => by
    simp only [processFields]
    rcases parseModeCell pf ((alookup row fl.1).getD "") with _ | v
    · exact processFields_nodup pf row month fs aggs h
    · exact processFields_nodup pf row month fs _ (pyDictUpd_nodup _ _ aggs _ h)

theorem processRows_nodup (pf : String → Option ℚ) :
    ∀ (rows : List CsvRow) (aggs : List ((String × String) × (ℤ × Nat))),
      (aggs.map Prod.fst).Nodup →
      ((processRows pf rows aggs).map Prod.fst).Nodup
  | [], _, h => h
  | row :: rest, aggs, h => by
    simp only [processRows]
    rcases rowDate row with _ | ym
    · exact processRows_nodup pf rest aggs h
    · exact processRows_nodup pf rest _
        (processFields_nodup pf row (monthKey ym.1 ym.2) RAIL_FIELDS aggs h)

theorem railLe_total (a b : RidershipRecord) : (railLe a b || railLe b a) = true := by
  unfold railLe
  by_cases h : a.mode = b.mode
  · rw [if_pos h, if_pos h.symm]
    exact strLeB_total a.month.data b.month.data
  · rw [if_neg h, if_neg (fun he => h he.symm)]
    exact strLeB_total a.mode.data b.mode.data

theorem railLe_trans (a b c : RidershipRecord) (h1 : railLe a b = true)
    (h2 : railLe b c = true) : railLe a c = true := by
  unfold railLe at h1 h2 ⊢
  by_cases hab : a.mode = b.mode <;> by_cases hbc : b.mode = c.mode
  · rw [if_pos hab] at h1
    rw [if_pos hbc] at h2
    rw [if_pos (hab.trans hbc)]
    exact strLeB_trans _ _ _ h1 h2
  · rw [if_pos hab] at h1
    rw [if_neg hbc] at h2
    rw [if_neg (fun h => hbc (hab.symm.trans h)), hab]
    exact h2
  · rw [if_neg hab] at h1
    rw [if_pos hbc] at h2
    rw [if_neg (fun h => hab (h.trans hbc.symm)), ← hbc]
    exact h1
  · rw [if_neg hab] at h1
    rw [if_neg hbc] at h2
    by_cases hac : a.mode = c.mode
    · exfalso
      have h2' : strLeB b.mode.data a.mode.data = true := by rw [hac]; exact h2
      have : a.mode = b.mode :=
        congrArg String.mk (strLeB_antisymm a.mode.data b.mode.data h1 h2')
      exact hab this
    · rw [if_neg hac]
      exact strLeB_trans _ _ _ h1 h2

set_option maxRecDepth 16384 in
set_option maxHeartbeats 1000000 in
/-- C7: `build_rail_monthly_ridership` buckets accepted values by
(mode label, month) — dates parsed as `%m/%d/%Y` first and `%d/%m/%Y` on
failure, rows with unparseable dates dropped — emits for each non-empty
bucket the half-to-even rounded arithmetic mean, and sorts ascending by
(mode, month); the spec's two-row example averages 1000 and 1100 to 1050. -/
theorem build_rail_monthly_ridership_spec (pf : String → Option ℚ)
    (rows : List CsvRow) :
    ((build_rail_monthly_ridership pf rows).Pairwise
      (fun a b => railLe a b = true)) ∧
    (∀ rec ∈ build_rail_monthly_ridership pf rows,
      obsFor pf rows rec.mode rec.month ≠ [] ∧
      rec.average_ridership =
        pyRound (((obsFor pf rows rec.mode rec.month).sum : ℚ) /
          ((obsFor pf rows rec.mode rec.month).length : ℚ))) ∧
    (∀ label month : String, obsFor pf rows label month ≠ [] →
      ∃ rec ∈ build_rail_monthly_ridership pf rows,
        rec.mode = label ∧ rec.month = month) ∧
    (build_rail_monthly_ridership pyFloat
        [[("date", "01/15/2022"), ("rail_lrt_ampang", "1000")],
         [("date", "01/20/2022"), ("rail_lrt_ampang", "1100")]] =
      [⟨"2022-01", "LRT Ampang", 1050⟩]) := by
  have hmem : ∀ rec, rec ∈ build_rail_monthly_ridership pf rows ↔
      ∃ kv ∈ processRows pf rows [], kv.2.2 ≠ 0 ∧
        rec = ⟨kv.1.2, kv.1.1, pyRound ((kv.2.1 : ℚ) / (kv.2.2 : ℚ))⟩ := by
    intro rec
    simp only [build_rail_monthly_ridership, List.mem_mergeSort, List.mem_filterMap]
    constructor
    · rintro ⟨kv, hkv, hsome⟩
      by_cases hz : kv.2.2 = 0
      · rw [if_pos hz] at hsome
        exact absurd hsome (by simp)
      · rw [if_neg hz] at hsome
        simp only [Option.some.injEq] at hsome
        exact ⟨kv, hkv, hz, hsome.symm⟩
    · rintro ⟨kv, hkv, hz, hrec⟩
      refine ⟨kv, hkv, ?_⟩
      rw [if_neg hz, hrec]
  have hlook : ∀ kv, kv ∈ processRows pf rows [] →
      obsFor pf rows kv.1.1 kv.1.2 ≠ [] ∧
      kv.2.1 = (obsFor pf rows kv.1.1 kv.1.2).sum ∧
      kv.2.2 = (obsFor pf rows kv.1.1 kv.1.2).length := by
    intro kv hkv
    have hnd := processRows_nodup pf rows [] (by simp)
    have h1 := alookup_of_mem _ hnd kv hkv
    rw [processRows_alookup pf rows [] kv.1] at h1
    simp only [alookup, combineAgg] at h1
    by_cases hobs : obsFor pf rows kv.1.1 kv.1.2 = []
    · rw [if_pos hobs] at h1
      exact absurd h1 (by simp)
    · rw [if_neg hobs] at h1
      simp only [Option.some.injEq] at h1
      exact ⟨hobs, by rw [← h1], by rw [← h1]⟩
  refine ⟨?_, ?_, ?_, ?_⟩
  · apply List.sorted_mergeSort railLe_trans
    intro a b
    exact railLe_total a b
  · intro rec hrec
    obtain ⟨kv, hkv, hz, hrec⟩ := (hmem rec).1 hrec
    obtain ⟨hobs, hsum, hlen⟩ := hlook kv hkv
    subst hrec
    exact ⟨hobs, by rw [hsum, hlen]⟩
  · intro label month hobs
    have h1 : alookup (processRows pf rows []) (label, month) =
        some ((obsFor pf rows label month).sum, (obsFor pf rows label month).length) := by
      rw [processRows_alookup pf rows [] (label, month)]
      simp only [alookup, combineAgg]
      rw [if_neg hobs]
    have h2 := mem_of_alookup _ _ _ h1
    refine ⟨⟨month, label,
      pyRound (((obsFor pf rows label month).sum : ℚ) /
        ((obsFor pf rows label month).length : ℚ))⟩, ?_, rfl, rfl⟩
    refine (hmem _).2 ⟨((label, month),
      ((obsFor pf rows label month).sum, (obsFor pf rows label month).length)),
      h2, ?_, rfl⟩
    simpa using hobs
  · with_unfolding_all decide

set_option maxRecDepth 16384 in
theorem build_rail_monthly_ridership_spec_witness :
    obsFor pyFloat
        [[("date", "01/15/2022"), ("rail_lrt_ampang", "1000")],
         [("date", "01/20/2022"), ("rail_lrt_ampang", "1100")]]
        "LRT Ampang" "2022-01" ≠ [] ∧
    ∃ rec ∈ build_rail_monthly_ridership pyFloat
        [[("date", "01/15/2022"), ("rail_lrt_ampang", "1000")],
         [("date", "01/20/2022"), ("rail_lrt_ampang", "1100")]],
      rec.mode = "LRT Ampang" ∧ rec.month = "2022-01" :=
  ⟨by with_unfolding_all decide,
   (build_rail_monthly_ridership_spec pyFloat
     [[("date", "01/15/2022"), ("rail_lrt_ampang", "1000")],
      [("date", "01/20/2022"), ("rail_lrt_ampang", "1100")]]).2.2.1
     "LRT Ampang" "2022-01" (by with_unfolding_all decide)⟩
